import Mathlib

/-!
Shallow embedding of the jobworker package: the Job record, the package-level
registry state (jobs map, identifier counter), the operations Start, GetStatus,
GetOutput, Stop, and the body of the per-job completion goroutine, together with
a step relation describing the lock-serialised interleavings of those operations.
-/

/-- One decimal digit character (codepoint 48 + d), as produced by the decimal
formatting of identifiers. -/
def decDigitChar (d : Nat) : Char := Char.ofNat (48 + d)

/-- Decimal digit characters of n, most significant first; structural recursion on
fuel (fuel = n suffices since n / 10 decreases). -/
def itoaAux : Nat → Nat → List Char
  | 0, _ => []
  | fuel + 1, n => if n = 0 then [] else itoaAux fuel (n / 10) ++ [decDigitChar (n % 10)]

/-- Embeds strconv.Itoa: the decimal string representation of a natural number. -/
def itoa (n : Nat) : String := if n = 0 then "0" else String.mk (itoaAux n n)

/-- Decimal value of a digit string; a left inverse of itoa, used to prove itoa
injective. -/
def atoi (s : String) : Nat :=
  s.data.foldl (fun a c => 10 * a + (c.toNat - 48)) 0

/-- Embeds the Job struct. The runtime handles cmd and ctx are not data; the
cancellation handle cancel is modelled by the flag cancelled, true once the handle
has been invoked. -/
structure Job where
  id : String
  command : String
  args : List String
  status : String
  exitCode : Option Int
  stdout : String
  stderr : String
  cancelled : Bool
deriving DecidableEq

/-- Embeds the package-level mutable state: the jobs map (as an association list,
most recent insertion first — keys are unique in every reachable state), the
identifier counter nextID, and the scheduler state pending: the ids whose
completion goroutine has been spawned but has not yet run. -/
structure S where
  jobs : List (String × Job)
  nextID : Nat
  pending : List String
deriving DecidableEq

/-- Embeds the Go map lookup jobs[id]. -/
def lookupJob : List (String × Job) → String → Option Job
  | [], _ => none
  | (k, j) :: rest, id => if k = id then some j else lookupJob rest id

/-- In-place mutation of the record stored under a key (the goroutine and Stop
mutate the Job through a shared pointer while holding the lock). -/
def updateJob : List (String × Job) → String → (Job → Job) → List (String × Job)
  | [], _, _ => []
  | (k, j) :: rest, id, f =>
    if k = id then (k, f j) :: updateJob rest id f else (k, j) :: updateJob rest id f

/-- Result of one call to Start: the post state, the string returned to the caller,
the returned error, and whether the failure path invoked the cancel handle. -/
structure StartOut where
  s : S
  ret : String
  err : Option String
  cancelReleased : Bool
deriving DecidableEq

/-- The package-level initial state: empty jobs map, nextID = 1, no goroutines. -/
def init : S := { jobs := [], nextID := 1, pending := [] }

/-- Embeds Start: allocates the id strconv.Itoa(nextID) and increments nextID under
the lock, then attempts to spawn the process (spawnOk models whether cmd.Start
succeeds). On spawn failure it invokes cancel and returns ("", err) with no job
registered. On success it registers a Running job with empty output fields, spawns
the completion goroutine (the id joins pending), and returns job.Status — the
literal text of the source is return job.Status, nil. -/
def start (st : S) (command : String) (args : List String) (spawnOk : Bool) : StartOut :=
  let id := itoa st.nextID
  let st1 : S := { st with nextID := st.nextID + 1 }
  if spawnOk then
    let job : Job :=
      { id := id, command := command, args := args, status := "Running",
        exitCode := none, stdout := "", stderr := "", cancelled := false }
    { s := { st1 with jobs := (id, job) :: st1.jobs, pending := id :: st1.pending },
      ret := job.status, err := none, cancelReleased := false }
  else
    { s := st1, ret := "", err := some "start failure", cancelReleased := true }

/-- Embeds GetStatus: under a read lock, returns the job status, or ("", not-found
error) when the id is absent. -/
def getStatus (st : S) (id : String) : String × Option String :=
  match lookupJob st.jobs id with
  | none => ("", some "job not found")
  | some j => (j.status, none)

/-- Embeds GetOutput: under a read lock, returns the captured stdout and stderr, or
("", "", not-found error) when the id is absent. -/
def getOutput (st : S) (id : String) : String × String × Option String :=
  match lookupJob st.jobs id with
  | none => ("", "", some "job not found")
  | some j => (j.stdout, j.stderr, none)

/-- The mutation Stop applies to the job record: invoke the cancellation handle
(invoking it again has no further effect). -/
def cancelJob (j : Job) : Job := { j with cancelled := true }

/-- Modelled from the spec: the function Stop of package jobworker is absent from
the sources (only its HTTP caller handleStopJob and its tests appear). Per the
spec, stop fails with NotFound when the id is absent from the registry, and
otherwise triggers the job's cancellation handle — the only synchronous action; it
does not itself mutate status, and invoking the handle more than once is safe with
no additional effect. -/
def stop (st : S) (id : String) : S × Option String :=
  match lookupJob st.jobs id with
  | none => (st, some "job not found")
  | some _ => ({ st with jobs := updateJob st.jobs id cancelJob }, none)

/-- Outcome of cmd.Wait as observed by a completion goroutine: whether Wait
returned a non-nil error (always true for a process killed via the cancellation
context), the value of cmd.ProcessState.ExitCode (-1 when the process was
terminated by a signal), and the contents of the two capture buffers. -/
structure WaitResult where
  waitErr : Bool
  exitCode : Int
  stdout : String
  stderr : String
deriving DecidableEq

/-- Embeds the body of the completion goroutine acting on one job record: it writes
Stdout and Stderr from the capture buffers, sets Status to "Failed" when Wait
returned an error and to "Succeeded" otherwise, and records the exit code when it
is not -1. The update is unconditional — the current status is never inspected. -/
def finalizeJob (j : Job) (w : WaitResult) : Job :=
  { j with
    stdout := w.stdout
    stderr := w.stderr
    status := if w.waitErr then "Failed" else "Succeeded"
    exitCode := if w.exitCode = -1 then j.exitCode else some w.exitCode }

/-- The completion goroutine of job id firing: it applies finalizeJob under the
lock, and the goroutine exits (the id leaves pending). -/
def finalize (st : S) (id : String) (w : WaitResult) : S :=
  { st with
    jobs := updateJob st.jobs id (fun j => finalizeJob j w)
    pending := st.pending.erase id }

/-- Runs a sequence of Start calls (command, args, spawn outcome); returns the
final state and the identifiers issued by the generator (the keys under which
successful starts register their jobs), in order. -/
def runStarts : S → List (String × List String × Bool) → S × List String
  | st, [] => (st, [])
  | st, (c, a, ok) :: rest =>
    let r := runStarts (start st c a ok).s rest
    (r.1, itoa st.nextID :: r.2)

/-- One atomic step of the system. The registry lock serialises every state
mutation, so an execution is an interleaving of Start calls (with the spawn
outcome chosen by the OS), Stop calls, completion-goroutine finalisations — only
for a job whose goroutine is still pending, since each goroutine runs its body
exactly once — and the read-only GetStatus and GetOutput calls. -/
inductive Step : S → S → Prop
  | startStep (st : S) (c : String) (a : List String) (ok : Bool) :
      Step st (start st c a ok).s
  | stopStep (st : S) (id : String) : Step st (stop st id).1
  | finalizeStep (st : S) (id : String) (w : WaitResult) (h : id ∈ st.pending) :
      Step st (finalize st id w)
  | readStatus (st : S) (id : String) : Step st st
  | readOutput (st : S) (id : String) : Step st st

/-- States reachable from the package-level initial state. -/
inductive Reachable : S → Prop
  | base : Reachable init
  | step (st st2 : S) (h1 : Reachable st) (h2 : Step st st2) : Reachable st2

theorem decDigitChar_toNat (d : Nat) (h : d < 10) : (decDigitChar d).toNat = 48 + d := by
  interval_cases d <;> decide

theorem foldl_itoaAux (fuel : Nat) :
    ∀ n a, n ≤ fuel →
      (itoaAux fuel n).foldl (fun a c => 10 * a + (c.toNat - 48)) a =
        a * 10 ^ (itoaAux fuel n).length + n := by
  induction fuel with
  | zero =>
    intro n a h
    interval_cases n
    simp [itoaAux]
  | succ fuel ih =>
    intro n a h
    by_cases h0 : n = 0
    · subst h0; simp [itoaAux]
    · have hdiv : n / 10 ≤ fuel := by
        have : n / 10 < n := Nat.div_lt_self (Nat.pos_of_ne_zero h0) (by omega)
        omega
      simp only [itoaAux, if_neg h0, List.foldl_append, List.foldl_cons, List.foldl_nil,
        List.length_append, List.length_cons, List.length_nil]
      rw [ih (n / 10) a hdiv, decDigitChar_toNat (n % 10) (Nat.mod_lt _ (by omega))]
      have hmod := Nat.div_add_mod n 10
      have hsub : 48 + n % 10 - 48 = n % 10 := by omega
      rw [hsub]
      have hring :
          10 * (a * 10 ^ (itoaAux fuel (n / 10)).length + n / 10) + n % 10 =
            a * 10 ^ ((itoaAux fuel (n / 10)).length + (0 + 1)) + (10 * (n / 10) + n % 10) := by
        ring
      rw [hring, hmod]

theorem atoi_itoa (n : Nat) : atoi (itoa n) = n := by
  by_cases h0 : n = 0
  · subst h0; decide
  · simp only [itoa, if_neg h0, atoi]
    exact (foldl_itoaAux n n 0 le_rfl).trans (by simp)

theorem itoa_injective : Function.Injective itoa := by
  intro m n h
  have hm := atoi_itoa m
  rw [h, atoi_itoa] at hm
  exact hm.symm

theorem lookupJob_mem (l : List (String × Job)) (k : String) (j : Job)
    (h : lookupJob l k = some j) : k ∈ l.map Prod.fst := by
  induction l with
  | nil => simp [lookupJob] at h
  | cons kv rest ih =>
    obtain ⟨k0, j0⟩ := kv
    simp only [lookupJob] at h
    by_cases hk : k0 = k
    · simp [hk]
    · simp only [if_neg hk] at h
      simp [ih h]

theorem lookupJob_eq_none (l : List (String × Job)) (k : String) :
    lookupJob l k = none ↔ k ∉ l.map Prod.fst := by
  induction l with
  | nil => simp [lookupJob]
  | cons kv rest ih =>
    obtain ⟨k0, j0⟩ := kv
    simp only [lookupJob, List.map_cons, List.mem_cons]
    by_cases hk : k0 = k
    · simp [hk]
    · have : ¬k = k0 := fun he => hk he.symm
      simp [hk, ih, this]

theorem lookupJob_updateJob (l : List (String × Job)) (id k : String) (f : Job → Job) :
    lookupJob (updateJob l id f) k =
      if k = id then (lookupJob l k).map f else lookupJob l k := by
  induction l with
  | nil => simp [lookupJob, updateJob]
  | cons kv rest ih =>
    obtain ⟨k0, j0⟩ := kv
    by_cases h1 : k0 = id <;> by_cases h2 : k0 = k
    · subst h1; subst h2
      simp [updateJob, lookupJob]
    · subst h1
      have hkk : ¬k = k0 := fun he => h2 he.symm
      simp [updateJob, lookupJob, ih, h2, hkk]
    · subst h2
      simp [updateJob, lookupJob, ih, h1]
    · simp [updateJob, lookupJob, ih, h1, h2]

theorem updateJob_keys (l : List (String × Job)) (id : String) (f : Job → Job) :
    (updateJob l id f).map Prod.fst = l.map Prod.fst := by
  induction l with
  | nil => rfl
  | cons kv rest ih =>
    obtain ⟨k0, j0⟩ := kv
    simp only [updateJob]
    by_cases h : k0 = id <;> simp [h, ih]

theorem updateJob_updateJob (l : List (String × Job)) (id : String) (f g : Job → Job) :
    updateJob (updateJob l id f) id g = updateJob l id (fun j => g (f j)) := by
  induction l with
  | nil => rfl
  | cons kv rest ih =>
    obtain ⟨k0, j0⟩ := kv
    simp only [updateJob]
    by_cases h : k0 = id <;> simp [updateJob, h, ih]

theorem start_nextID (st : S) (c : String) (a : List String) (ok : Bool) :
    (start st c a ok).s.nextID = st.nextID + 1 := by
  cases ok <;> simp [start]

/-- The record Start registers on a successful spawn. -/
def newJob (st : S) (c : String) (a : List String) : Job :=
  { id := itoa st.nextID, command := c, args := a, status := "Running",
    exitCode := none, stdout := "", stderr := "", cancelled := false }

theorem start_false_s (st : S) (c : String) (a : List String) :
    (start st c a false).s = { st with nextID := st.nextID + 1 } := rfl

theorem start_true_s (st : S) (c : String) (a : List String) :
    (start st c a true).s =
      { jobs := (itoa st.nextID, newJob st c a) :: st.jobs,
        nextID := st.nextID + 1,
        pending := itoa st.nextID :: st.pending } := rfl

/-- The inductive invariant of the reachable states: every registry key was issued
by the counter, keys are unique, every pending goroutine belongs to a registered
job, the pending ids are distinct, a job is Running exactly while its goroutine has
not yet finalized it, and a Running job has empty output fields. -/
structure RegInv (st : S) : Prop where
  keys_lt : ∀ k ∈ st.jobs.map Prod.fst, ∃ n, n < st.nextID ∧ k = itoa n
  keys_nodup : (st.jobs.map Prod.fst).Nodup
  pending_mem : ∀ id ∈ st.pending, id ∈ st.jobs.map Prod.fst
  pending_nodup : st.pending.Nodup
  running_iff : ∀ k j, lookupJob st.jobs k = some j → (j.status = "Running" ↔ k ∈ st.pending)
  running_empty : ∀ k j, lookupJob st.jobs k = some j → j.status = "Running" →
    j.stdout = "" ∧ j.stderr = ""

theorem fresh_id (st : S) (hI : RegInv st) : itoa st.nextID ∉ st.jobs.map Prod.fst := by
  intro hmem
  obtain ⟨n, hn, he⟩ := hI.keys_lt _ hmem
  have := itoa_injective he
  omega

theorem inv_init : RegInv init := by
  constructor <;> simp [init, lookupJob]

theorem inv_step (st st2 : S) (hI : RegInv st) (hS : Step st st2) : RegInv st2 := by
  cases hS with
  | startStep c a ok =>
    cases ok with
    | false =>
      rw [start_false_s]
      refine ⟨?_, hI.keys_nodup, hI.pending_mem, hI.pending_nodup, hI.running_iff,
        hI.running_empty⟩
      intro k hk
      obtain ⟨n, hn, he⟩ := hI.keys_lt k hk
      exact ⟨n, by show n < st.nextID + 1; omega, he⟩
    | true =>
      rw [start_true_s]
      have hfresh : itoa st.nextID ∉ st.jobs.map Prod.fst := fresh_id st hI
      have hfreshp : itoa st.nextID ∉ st.pending := fun hmem => hfresh (hI.pending_mem _ hmem)
      refine ⟨?_, ?_, ?_, ?_, ?_, ?_⟩
      · intro k hk
        simp only [List.map_cons, List.mem_cons] at hk
        cases hk with
        | inl h => exact ⟨st.nextID, by show st.nextID < st.nextID + 1; omega, h⟩
        | inr h =>
          obtain ⟨n, hn, he⟩ := hI.keys_lt k h
          exact ⟨n, by show n < st.nextID + 1; omega, he⟩
      · simp only [List.map_cons, List.nodup_cons]
        exact ⟨hfresh, hI.keys_nodup⟩
      · intro id hid
        simp only [List.mem_cons] at hid
        simp only [List.map_cons, List.mem_cons]
        cases hid with
        | inl h => exact Or.inl h
        | inr h => exact Or.inr (hI.pending_mem id h)
      · exact List.nodup_cons.mpr ⟨hfreshp, hI.pending_nodup⟩
      · intro k j hkj
        simp only [lookupJob] at hkj
        by_cases hk : itoa st.nextID = k
        · subst hk
          rw [if_pos rfl] at hkj
          have hj : j = newJob st c a := (Option.some.inj hkj).symm
          subst hj
          simp [newJob]
        · rw [if_neg hk] at hkj
          rw [hI.running_iff k j hkj]
          simp only [List.mem_cons]
          constructor
          · intro h; exact Or.inr h
          · intro h
            cases h with
            | inl he => exact absurd he.symm hk
            | inr hm => exact hm
      · intro k j hkj hr
        simp only [lookupJob] at hkj
        by_cases hk : itoa st.nextID = k
        · rw [if_pos hk] at hkj
          have hj : j = newJob st c a := (Option.some.inj hkj).symm
          subst hj
          exact ⟨rfl, rfl⟩
        · rw [if_neg hk] at hkj
          exact hI.running_empty k j hkj hr
  | stopStep id =>
    cases hl : lookupJob st.jobs id with
    | none => simpa [stop, hl] using hI
    | some j0 =>
      simp only [stop, hl]
      refine ⟨?_, ?_, ?_, hI.pending_nodup, ?_, ?_⟩
      · intro k hk
        rw [updateJob_keys] at hk
        exact hI.keys_lt k hk
      · show ((updateJob st.jobs id _).map Prod.fst).Nodup
        rw [updateJob_keys]
        exact hI.keys_nodup
      · intro id2 hid
        show id2 ∈ (updateJob st.jobs id _).map Prod.fst
        rw [updateJob_keys]
        exact hI.pending_mem id2 hid
      · intro k j hkj
        rw [lookupJob_updateJob] at hkj
        by_cases hk : k = id
        · rw [if_pos hk] at hkj
          cases hlk : lookupJob st.jobs k with
          | none => rw [hlk] at hkj; simp at hkj
          | some j1 =>
            rw [hlk] at hkj
            simp only [Option.map_some'] at hkj
            have hj : j = cancelJob j1 := (Option.some.inj hkj).symm
            subst hj
            exact hI.running_iff k j1 hlk
        · rw [if_neg hk] at hkj
          exact hI.running_iff k j hkj
      · intro k j hkj hr
        rw [lookupJob_updateJob] at hkj
        by_cases hk : k = id
        · rw [if_pos hk] at hkj
          cases hlk : lookupJob st.jobs k with
          | none => rw [hlk] at hkj; simp at hkj
          | some j1 =>
            rw [hlk] at hkj
            simp only [Option.map_some'] at hkj
            have hj : j = cancelJob j1 := (Option.some.inj hkj).symm
            subst hj
            exact hI.running_empty k j1 hlk hr
        · rw [if_neg hk] at hkj
          exact hI.running_empty k j hkj hr
  | finalizeStep id w hp =>
    simp only [finalize]
    refine ⟨?_, ?_, ?_, hI.pending_nodup.erase id, ?_, ?_⟩
    · intro k hk
      rw [updateJob_keys] at hk
      exact hI.keys_lt k hk
    · show ((updateJob st.jobs id _).map Prod.fst).Nodup
      rw [updateJob_keys]
      exact hI.keys_nodup
    · intro id2 hid
      show id2 ∈ (updateJob st.jobs id _).map Prod.fst
      rw [updateJob_keys]
      exact hI.pending_mem id2 (List.mem_of_mem_erase hid)
    · intro k j hkj
      rw [lookupJob_updateJob] at hkj
      by_cases hk : k = id
      · subst hk
        rw [if_pos rfl] at hkj
        cases hlk : lookupJob st.jobs k with
        | none => rw [hlk] at hkj; simp at hkj
        | some j1 =>
          rw [hlk] at hkj
          simp only [Option.map_some'] at hkj
          have hj : j = finalizeJob j1 w := (Option.some.inj hkj).symm
          subst hj
          have hnm : k ∉ st.pending.erase k := fun hmem =>
            absurd rfl ((hI.pending_nodup.mem_erase_iff.mp hmem).1)
          constructor
          · intro hrun
            exfalso
            cases hw : w.waitErr <;> simp [finalizeJob, hw] at hrun
          · intro hmem; exact absurd hmem hnm
      · rw [if_neg hk] at hkj
        rw [hI.running_iff k j hkj]
        exact (List.mem_erase_of_ne hk).symm
    · intro k j hkj hr
      rw [lookupJob_updateJob] at hkj
      by_cases hk : k = id
      · rw [if_pos hk] at hkj
        cases hlk : lookupJob st.jobs k with
        | none => rw [hlk] at hkj; simp at hkj
        | some j1 =>
          rw [hlk] at hkj
          simp only [Option.map_some'] at hkj
          have hj : j = finalizeJob j1 w := (Option.some.inj hkj).symm
          subst hj
          exfalso
          cases hw : w.waitErr <;> simp [finalizeJob, hw] at hr
      · rw [if_neg hk] at hkj
        exact hI.running_empty k j hkj hr
  | readStatus id => exact hI
  | readOutput id => exact hI

theorem inv_reachable (st : S) (h : Reachable st) : RegInv st := by
  induction h with
  | base => exact inv_init
  | step st st2 h1 h2 ih => exact inv_step st st2 ih h2

theorem runStarts_mem (l : List (String × List String × Bool)) :
    ∀ (st : S) (x : String), x ∈ (runStarts st l).2 → ∃ n, st.nextID ≤ n ∧ x = itoa n := by
  induction l with
  | nil => intro st x hx; simp [runStarts] at hx
  | cons p rest ih =>
    intro st x hx
    obtain ⟨c, a, ok⟩ := p
    simp only [runStarts, List.mem_cons] at hx
    cases hx with
    | inl h => exact ⟨st.nextID, le_rfl, h⟩
    | inr h =>
      obtain ⟨n, hn, he⟩ := ih (start st c a ok).s x h
      rw [start_nextID] at hn
      exact ⟨n, by omega, he⟩

theorem runStarts_nodup (l : List (String × List String × Bool)) :
    ∀ st : S, ((runStarts st l).2).Nodup := by
  induction l with
  | nil => intro st; simp [runStarts]
  | cons p rest ih =>
    intro st
    obtain ⟨c, a, ok⟩ := p
    simp only [runStarts]
    refine List.nodup_cons.mpr ⟨?_, ih _⟩
    intro hmem
    obtain ⟨n, hn, he⟩ := runStarts_mem rest _ _ hmem
    have hinj := itoa_injective he
    rw [start_nextID] at hn
    omega

/-- A sample reachable state: one successfully started job, registered under "1". -/
def s1 : S := (start init "echo" ["hi"] true).s

/-- The record registered for the sample job. -/
def job1 : Job :=
  { id := "1", command := "echo", args := ["hi"], status := "Running",
    exitCode := none, stdout := "", stderr := "", cancelled := false }

/-- The Wait outcome of a process killed through the cancellation context: Wait
reports a non-nil error and ExitCode reports -1. -/
def wKill : WaitResult := { waitErr := true, exitCode := -1, stdout := "", stderr := "" }

/-- A job record already finalized as Stopped, as the spec's state machine allows. -/
def stoppedJob : Job :=
  { id := "1", command := "sleep", args := ["10"], status := "Stopped",
    exitCode := none, stdout := "", stderr := "", cancelled := true }

theorem reach_s1 : Reachable s1 :=
  Reachable.step init s1 Reachable.base (Step.startStep init "echo" ["hi"] true)

/-- C1: the claim fails on the code. On the first successful call, Start registers
the new Running job under the freshly issued key "1" but returns job.Status — the
string "Running" — to the caller, so the returned string is not the identifier the
job is registered under, and GetStatus applied to the returned string reports the
job as not found. -/
theorem C1_start_returns_status_not_id :
    (start init "echo" ["hello", "world"] true).ret = "Running" ∧
    (start init "echo" ["hello", "world"] true).s.jobs.map Prod.fst = ["1"] ∧
    (start init "echo" ["hello", "world"] true).ret ≠ "1" ∧
    getStatus (start init "echo" ["hello", "world"] true).s "Running" =
      ("", some "job not found") := by
  decide

/-- C2: the claim fails on the code. For a job started and then cancelled while
running (the cancellation handle invoked by Stop), the completion goroutine
observes a non-nil Wait error from the killed process and records "Failed": the
goroutine classifies every non-nil Wait error as "Failed" and contains no branch
producing "Stopped", although the package's own TestStopJob expects "Stopped". -/
theorem C2_cancelled_job_finalized_as_Failed :
    (lookupJob (stop (start init "sleep" ["10"] true).s "1").1.jobs "1").map Job.cancelled
      = some true ∧
    getStatus (finalize (stop (start init "sleep" ["10"] true).s "1").1 "1" wKill) "1"
      = ("Failed", none) ∧
    ("Failed" : String) ≠ "Stopped" := by
  decide

/-- C3: in every reachable state, one step of any operation (Start, Stop, a
goroutine finalisation, GetStatus, GetOutput) either leaves a registered job's
status unchanged or moves it from "Running" to one of the terminal values
"Succeeded", "Failed", "Stopped"; in particular once a terminal value is recorded
the status never changes again. -/
theorem C3_status_transitions (st st2 : S) (k : String) (j j2 : Job)
    (hR : Reachable st) (hS : Step st st2)
    (h1 : lookupJob st.jobs k = some j) (h2 : lookupJob st2.jobs k = some j2) :
    j2.status = j.status ∨
      (j.status = "Running" ∧
        (j2.status = "Succeeded" ∨ j2.status = "Failed" ∨ j2.status = "Stopped")) := by
  have hI := inv_reachable st hR
  cases hS with
  | startStep c a ok =>
    cases ok with
    | false =>
      left
      have hj : j = j2 := Option.some.inj (h1.symm.trans h2)
      rw [hj]
    | true =>
      rw [start_true_s] at h2
      simp only [lookupJob] at h2
      by_cases hk : itoa st.nextID = k
      · exfalso
        have hmem := lookupJob_mem st.jobs k j h1
        rw [← hk] at hmem
        exact fresh_id st hI hmem
      · rw [if_neg hk] at h2
        left
        have hj : j = j2 := Option.some.inj (h1.symm.trans h2)
        rw [hj]
  | stopStep id =>
    cases hl : lookupJob st.jobs id with
    | none =>
      simp only [stop, hl] at h2
      left
      have hj : j = j2 := Option.some.inj (h1.symm.trans h2)
      rw [hj]
    | some j0 =>
      simp only [stop, hl] at h2
      rw [lookupJob_updateJob] at h2
      by_cases hk : k = id
      · rw [if_pos hk, h1] at h2
        simp only [Option.map_some'] at h2
        have hj : j2 = cancelJob j := (Option.some.inj h2).symm
        left
        rw [hj]
        rfl
      · rw [if_neg hk] at h2
        left
        have hj : j = j2 := Option.some.inj (h1.symm.trans h2)
        rw [hj]
  | finalizeStep id w hp =>
    simp only [finalize] at h2
    rw [lookupJob_updateJob] at h2
    by_cases hk : k = id
    · subst hk
      rw [if_pos rfl, h1] at h2
      simp only [Option.map_some'] at h2
      have hj2 : j2 = finalizeJob j w := (Option.some.inj h2).symm
      right
      refine ⟨(hI.running_iff k j h1).mpr hp, ?_⟩
      subst hj2
      cases hw : w.waitErr
      · left; simp [finalizeJob, hw]
      · right; left; simp [finalizeJob, hw]
    · rw [if_neg hk] at h2
      left
      have hj : j = j2 := Option.some.inj (h1.symm.trans h2)
      rw [hj]
  | readStatus id =>
    left
    have hj : j = j2 := Option.some.inj (h1.symm.trans h2)
    rw [hj]
  | readOutput id =>
    left
    have hj : j = j2 := Option.some.inj (h1.symm.trans h2)
    rw [hj]

theorem C3_witness :
    (finalizeJob job1 wKill).status = job1.status ∨
      (job1.status = "Running" ∧
        ((finalizeJob job1 wKill).status = "Succeeded" ∨
          (finalizeJob job1 wKill).status = "Failed" ∨
          (finalizeJob job1 wKill).status = "Stopped")) :=
  C3_status_transitions s1 (finalize s1 "1" wKill) "1" job1 (finalizeJob job1 wKill)
    reach_s1 (Step.finalizeStep s1 "1" wKill (by decide))
    (by decide) (by decide)

/-- C4: when the process cannot be spawned, Start invokes the cancel handle,
returns the empty identifier together with an error, and registers nothing: the
jobs map after the failed call is exactly the one from before it, so GetStatus for
any identifier that was not previously registered fails with the not-found
error. -/
theorem C4_start_failure_frame (st : S) (c : String) (a : List String) :
    (start st c a false).ret = "" ∧
    (start st c a false).err = some "start failure" ∧
    (start st c a false).cancelReleased = true ∧
    (start st c a false).s.jobs = st.jobs ∧
    ∀ id, lookupJob st.jobs id = none →
      getStatus (start st c a false).s id = ("", some "job not found") := by
  refine ⟨rfl, rfl, rfl, rfl, ?_⟩
  intro id h
  simp [getStatus, start, h]

theorem C4_witness :
    (start init "nosuchcmd" [] false).s.jobs = init.jobs ∧
    getStatus (start init "nosuchcmd" [] false).s "1" = ("", some "job not found") :=
  ⟨(C4_start_failure_frame init "nosuchcmd" []).2.2.2.1,
    (C4_start_failure_frame init "nosuchcmd" []).2.2.2.2 "1" (by decide)⟩

/-- C5: GetStatus and GetOutput fail — always with the not-found error — exactly
when the queried id is absent from the registry, returning zero values; when the
id is present they succeed and return the stored fields. -/
theorem C5_get_notfound_iff_absent (st : S) (id : String) :
    ((getStatus st id).2 = some "job not found" ↔ lookupJob st.jobs id = none) ∧
    ((getOutput st id).2.2 = some "job not found" ↔ lookupJob st.jobs id = none) ∧
    (lookupJob st.jobs id = none →
      getStatus st id = ("", some "job not found") ∧
      getOutput st id = ("", "", some "job not found")) ∧
    ∀ j, lookupJob st.jobs id = some j →
      getStatus st id = (j.status, none) ∧ getOutput st id = (j.stdout, j.stderr, none) := by
  cases h : lookupJob st.jobs id <;> simp [getStatus, getOutput, h]

theorem C5_witness :
    getStatus init "nonexistent" = ("", some "job not found") ∧
    getOutput init "nonexistent" = ("", "", some "job not found") ∧
    getStatus s1 "1" = ("Running", none) :=
  ⟨((C5_get_notfound_iff_absent init "nonexistent").2.2.1 (by decide)).1,
    ((C5_get_notfound_iff_absent init "nonexistent").2.2.1 (by decide)).2,
    ((C5_get_notfound_iff_absent s1 "1").2.2.2 job1 (by decide)).1⟩

/-- C6: in every reachable state, a registered job whose status is "Running" has
empty stdout and stderr, and GetOutput on it returns two empty strings with no
error; the output fields change only in the same atomic finalize step that makes
the status terminal. -/
theorem C6_running_output_empty (st : S) (k : String) (j : Job)
    (hR : Reachable st) (h : lookupJob st.jobs k = some j) (hr : j.status = "Running") :
    j.stdout = "" ∧ j.stderr = "" ∧ getOutput st k = ("", "", none) := by
  have hI := inv_reachable st hR
  obtain ⟨e1, e2⟩ := hI.running_empty k j h hr
  refine ⟨e1, e2, ?_⟩
  simp [getOutput, h, e1, e2]

theorem C6_witness :
    job1.stdout = "" ∧ job1.stderr = "" ∧ getOutput s1 "1" = ("", "", none) :=
  C6_running_output_empty s1 "1" job1 reach_s1 (by decide) rfl

/-- C7: the generator issues pairwise-distinct identifiers — the ids issued by any
sequence of Start calls (successful or not) contain no duplicate — and in every
reachable state the registry keys are pairwise distinct, so each id present in the
registry maps to exactly one Job and ids are never reused. -/
theorem C7_identifier_uniqueness :
    (∀ st : S, Reachable st → (st.jobs.map Prod.fst).Nodup) ∧
    ∀ (st : S) (l : List (String × List String × Bool)), ((runStarts st l).2).Nodup := by
  constructor
  · intro st h
    exact (inv_reachable st h).keys_nodup
  · intro st l
    exact runStarts_nodup l st

theorem C7_witness :
    (s1.jobs.map Prod.fst).Nodup ∧
    ((runStarts init
        [("echo", ["a"], true), ("bad", [], false), ("echo", ["b"], true)]).2).Nodup :=
  ⟨C7_identifier_uniqueness.1 s1 reach_s1,
    C7_identifier_uniqueness.2 init
      [("echo", ["a"], true), ("bad", [], false), ("echo", ["b"], true)]⟩

/-- C8: Stop fails — with the not-found error — exactly when the id is absent from
the registry; on a registered job it succeeds, a second Stop succeeds and leaves
the state exactly as after the first, and Stop never changes any job's status,
exit code, stdout or stderr — in particular it leaves a previously recorded
terminal status, exit code and output unchanged. -/
theorem C8_stop_idempotent (st : S) (id : String) :
    ((stop st id).2 = some "job not found" ↔ lookupJob st.jobs id = none) ∧
    ∀ j, lookupJob st.jobs id = some j →
      (stop st id).2 = none ∧
      stop (stop st id).1 id = ((stop st id).1, none) ∧
      ∀ k j0, lookupJob st.jobs k = some j0 →
        ∃ j1, lookupJob (stop st id).1.jobs k = some j1 ∧
          j1.status = j0.status ∧ j1.exitCode = j0.exitCode ∧
          j1.stdout = j0.stdout ∧ j1.stderr = j0.stderr := by
  cases h : lookupJob st.jobs id with
  | none => simp [stop, h]
  | some j0 =>
    refine ⟨by simp [stop, h], ?_⟩
    intro j hj
    refine ⟨by simp [stop, h], ?_, ?_⟩
    · have hl2 : lookupJob (updateJob st.jobs id cancelJob) id = some (cancelJob j0) := by
        rw [lookupJob_updateJob, if_pos rfl, h]
        rfl
      have hcomp : updateJob (updateJob st.jobs id cancelJob) id cancelJob =
          updateJob st.jobs id cancelJob := by
        rw [updateJob_updateJob]
        congr 1
      simp only [stop, h, hl2, hcomp]
    · intro k j0k hk
      simp only [stop, h]
      rw [lookupJob_updateJob]
      by_cases hkid : k = id
      · rw [if_pos hkid, hk]
        exact ⟨cancelJob j0k, rfl, rfl, rfl, rfl, rfl⟩
      · rw [if_neg hkid, hk]
        exact ⟨j0k, rfl, rfl, rfl, rfl, rfl⟩

theorem C8_witness :
    (stop s1 "1").2 = none ∧ stop (stop s1 "1").1 "1" = ((stop s1 "1").1, none) :=
  ⟨((C8_stop_idempotent s1 "1").2 job1 (by decide)).1,
    ((C8_stop_idempotent s1 "1").2 job1 (by decide)).2.1⟩

/-- C9: the claim fails on the code. The goroutine's finalize step never inspects
the current status: applied to a job already in the terminal state "Stopped" it
overwrites the status with "Failed" and is therefore not a no-op, contradicting
the guard the spec describes. -/
theorem C9_finalize_overwrites_terminal :
    (finalizeJob stoppedJob wKill).status = "Failed" ∧
    finalizeJob stoppedJob wKill ≠ stoppedJob := by
  decide

/-- C10: a Start whose spawn fails leaves the jobs map unchanged but has already
incremented nextID; the consumed identifier is never registered — a subsequent
successful Start registers under itoa (nextID + 1) — so the sequence of registered
identifiers can contain gaps. -/
theorem C10_failed_start_consumes_id (st : S) (c c2 : String) (a a2 : List String) :
    (start st c a false).s.jobs = st.jobs ∧
    (start st c a false).s.nextID = st.nextID + 1 ∧
    (start (start st c a false).s c2 a2 true).s.jobs.map Prod.fst =
      itoa (st.nextID + 1) :: st.jobs.map Prod.fst ∧
    (itoa st.nextID ∉ st.jobs.map Prod.fst →
      lookupJob (start (start st c a false).s c2 a2 true).s.jobs (itoa st.nextID) = none) := by
  refine ⟨rfl, rfl, by simp [start], ?_⟩
  intro h
  apply (lookupJob_eq_none _ _).mpr
  rw [show (start (start st c a false).s c2 a2 true).s.jobs =
      (itoa (st.nextID + 1), newJob (start st c a false).s c2 a2) :: st.jobs from rfl]
  intro hmem
  simp only [List.map_cons, List.mem_cons] at hmem
  cases hmem with
  | inl he =>
    have := itoa_injective he
    omega
  | inr hm => exact h hm

theorem C10_witness :
    (start init "bad" [] false).s.jobs = init.jobs ∧
    (start (start init "bad" [] false).s "echo" [] true).s.jobs.map Prod.fst = ["2"] ∧
    lookupJob (start (start init "bad" [] false).s "echo" [] true).s.jobs "1" = none := by
  refine ⟨(C10_failed_start_consumes_id init "bad" "echo" [] []).1, ?_, ?_⟩
  · rw [(C10_failed_start_consumes_id init "bad" "echo" [] []).2.2.1]
    decide
  · have h := (C10_failed_start_consumes_id init "bad" "echo" [] []).2.2.2 (by decide)
    rw [show itoa init.nextID = "1" from rfl] at h
    exact h
